import Mathlib

/-!
Verification of the static-file-serving subsystem of the Rocket fork
(`src/core/lib/src/fs/named_file.rs` plus the behavior exercised by
`src/core/lib/tests/file_server.rs`).

Paths are modelled as lists of plain component strings (a resolved
request path never contains `.` or `..` components, which the policy
rejects before any path is built, so `Path::extension` semantics reduce
to the extension of the last component).  Files are modelled by their
byte contents (`List Nat`); an open file handle is its contents.
-/

namespace Rocket

/-! ## `std::path` extension semantics

Rust's `Path::extension` returns the portion of the file name after the
last `.`, unless there is no `.` or the only `.` is the leading
character.  `Path::with_extension("")` keeps the portion before that
final `.` (the file stem).  We model both on the character list of the
final path component. -/

/-- Index of the last `.` in a character list, if any. -/
def lastDotIdx : List Char → Option Nat
  | [] => none
  | c :: cs =>
    match lastDotIdx cs with
    | some i => some (i + 1)
    | none => if c = '.' then some 0 else none

/-- `Path::extension` on a file name: the characters after the final `.`,
provided that dot exists and is not the leading character. -/
def extOfChars (cs : List Char) : Option (List Char) :=
  match lastDotIdx cs with
  | some i => if 0 < i then some (cs.drop (i + 1)) else none
  | none => none

/-- `Path::with_extension("")` on a file name: the characters before the
final `.` when an extension exists, otherwise the whole name. -/
def stemOfChars (cs : List Char) : List Char :=
  match lastDotIdx cs with
  | some i => if 0 < i then cs.take i else cs
  | none => cs

/-- `Path::extension` on a file-name string. -/
def extOf (s : String) : Option String :=
  (extOfChars s.data).map String.mk

/-- `Path::with_extension("")` on a file-name string. -/
def stemOf (s : String) : String :=
  String.mk (stemOfChars s.data)

/-- Last component of a path (Rust `Path::file_name` for plain components). -/
def lastSeg : List String → Option String
  | [] => none
  | [s] => some s
  | _ :: rest => lastSeg rest

/-- `Path::extension` of a whole path: the extension of its final component. -/
def pathExt (p : List String) : Option String :=
  (lastSeg p).bind extOf

/-- Whether a path component begins with a `.` character. -/
def startsWithDot (s : String) : Bool :=
  match s.data with
  | [] => false
  | c :: _ => c = '.'

/-! ## Filesystem model

The filesystem subtree under the configured root, as a finite
association from paths (component lists, relative to the root) to
entries.  A regular file carries its byte contents. -/

/-- A filesystem entry: a regular file with contents, or a directory. -/
inductive Entry
  | file (contents : List Nat)
  | dir
deriving DecidableEq, Repr

/-- The filesystem subtree scoped to a serving root. -/
abbrev Fs := List (List String × Entry)

/-- Existence/kind query against the filesystem. -/
def lookupFs : Fs → List String → Option Entry
  | [], _ => none
  | (q, e) :: rest, p => if q = p then some e else lookupFs rest p

/-! ## NamedFile (`src/core/lib/src/fs/named_file.rs`)

`NamedFile { path, file, compressed }`: an open file handle together
with the path it was opened from and the flag set by `open_compressed`.
The `tokio::fs::File` handle is modelled by the opened file's bytes. -/

structure NamedFile where
  path : List String
  file : List Nat
  compressed : Bool
deriving DecidableEq, Repr

/-- `NamedFile::open`: open `path` read-only; fails (I/O error) unless a
regular file exists there.  `compressed` is `false`. -/
def NamedFile.open (fs : Fs) (p : List String) : Option NamedFile :=
  match lookupFs fs p with
  | some (Entry.file contents) => some { path := p, file := contents, compressed := false }
  | _ => none

/-- `NamedFile::open_compressed`: identical to `open` but sets
`compressed := true`. -/
def NamedFile.openCompressed (fs : Fs) (p : List String) : Option NamedFile :=
  match lookupFs fs p with
  | some (Entry.file contents) => some { path := p, file := contents, compressed := true }
  | _ => none

/-- `NamedFile::file`, `Deref`: borrow the underlying file. -/
def NamedFile.fileRef (nf : NamedFile) : List Nat := nf.file

/-- `NamedFile::take_file`: take the underlying file. -/
def NamedFile.takeFile (nf : NamedFile) : List Nat := nf.file

/-- `NamedFile::path`: the path this file was opened from. -/
def NamedFile.getPath (nf : NamedFile) : List String := nf.path

/-- Writing through `NamedFile::file_mut` / `DerefMut` replaces only the
underlying file handle; `path` and `compressed` are untouched. -/
def NamedFile.withFile (nf : NamedFile) (f : List Nat) : NamedFile :=
  { nf with file := f }

/-- An HTTP response, restricted to the fields this subsystem sets:
status, `Location`, `Content-Encoding`, `Content-Type`, and the body. -/
structure HttpResponse where
  status : Nat
  location : Option String
  contentEncoding : Option String
  contentType : Option String
  body : List Nat
deriving DecidableEq, Repr

/-- `Responder for NamedFile::respond_to` (named_file.rs lines 162-181).
`self.file.respond_to(req)` yields a 200 response streaming the file's
bytes with no Content-Type or Content-Encoding; then, when the path has
an extension: if `compressed` and the extension is `"gz"`, set
`Content-Encoding: gzip` and, when `path.with_extension("")` itself has
an extension, use that extension instead of `gz`; finally set the
Content-Type found for the (possibly overridden) extension, leaving it
unset when the lookup finds nothing.  The extension-to-content-type
table (`ContentType::from_extension`, outside this subsystem) is a
parameter `ctFor`. -/
def respondTo (ctFor : String → Option String) (nf : NamedFile) : HttpResponse :=
  let base : HttpResponse :=
    { status := 200, location := none, contentEncoding := none,
      contentType := none, body := nf.file }
  match lastSeg nf.path with
  | none => base
  | some name =>
    match extOf name with
    | none => base
    | some ext =>
      let gz := nf.compressed && ext == "gz"
      let ext2 := if gz then ((extOf (stemOf name)).getD ext) else ext
      let r := if gz then { base with contentEncoding := some "gzip" } else base
      match ctFor ext2 with
      | some ct => { r with contentType := some ct }
      | none => r

/-! ## File-serving policy

The `FileServer` handler (`fs/server.rs`) is not among the provided
sources; the definitions below are modelled from the spec (§3, §4.3,
§4.4, §6), with the behavior pinned by the provided tests
(`tests/file_server.rs`) and by the `NamedFile` responder above. -/

/-- Modelled from the spec: `ServingOptions`, a set of independent
boolean toggles (`DotFiles`, `Index`, `NormalizeDirs`, `PreZipped`)
combined by set union. -/
structure Options where
  dotfiles : Bool
  index : Bool
  normalizeDirs : Bool
  prezipped : Bool
deriving DecidableEq, Repr

/-- `Options::None`: no toggle set. -/
def Options.empty : Options :=
  { dotfiles := false, index := false, normalizeDirs := false, prezipped := false }

/-- Modelled from the spec: the request data the policy consults — the
full request path (for the `Location` header), the mount-relative
decoded path segments, whether the raw path ends in `/`, the query
string, and whether `Accept-Encoding` indicates gzip acceptance. -/
structure Request where
  path : String
  segs : List String
  trailing : Bool
  query : Option String
  acceptGzip : Bool

/-- Modelled from the spec: a policy resolution — serve an opened file,
redirect to a normalized location, or decline (fall through). -/
inductive Resolved
  | file (nf : NamedFile)
  | redirect (location : String)
  | decline
deriving DecidableEq, Repr

/-- Whether a resolution is a redirect. -/
def Resolved.isRedirect : Resolved → Bool
  | .redirect _ => true
  | _ => false

/-- The query-string suffix appended verbatim after the redirect slash. -/
def qSuffix : Option String → String
  | none => ""
  | some q => "?" ++ q

/-- Modelled from the spec (§4.3 step 1): a segment that is empty or a
parent reference would escape the root and forces a decline. -/
def badSeg (s : String) : Bool := s == "" || s == ".."

/-- The pre-compressed sibling of a resolved file path: the same path
with `.gz` appended to the file name. -/
def gzSibling : List String → List String
  | [] => []
  | [s] => [s ++ ".gz"]
  | s :: rest => s :: gzSibling rest

/-- Modelled from the spec (§4.3 step 5): compression negotiation for
the resolved file path `rp`.  When `PreZipped` is set and the client
accepts gzip and the `.gz` sibling exists, open the sibling via
`open_compressed` (the `.gz` path is the one handed to the opener, as
the `NamedFile` responder in src derives both headers from a `.gz`
path); otherwise open `rp` itself via `open`.  Open failure declines. -/
def openResolved (fs : Fs) (opts : Options) (req : Request) (rp : List String) : Resolved :=
  let plain : Resolved :=
    match NamedFile.open fs rp with
    | some nf => Resolved.file nf
    | none => Resolved.decline
  if opts.prezipped && req.acceptGzip then
    match NamedFile.openCompressed fs (gzSibling rp) with
    | some nf => Resolved.file nf
    | none => plain
  else plain

/-- Modelled from the spec (§4.3): the per-request resolution state
machine — segment validation, the lexical dotfile gate, the
existence/kind check, the `NormalizeDirs` trailing-slash redirect
(checked before index resolution), `index.html` substitution under
`Index`, and compression negotiation on the resolved file. -/
def resolveReq (fs : Fs) (opts : Options) (req : Request) : Resolved :=
  if req.segs.any badSeg then Resolved.decline
  else if !opts.dotfiles && req.segs.any startsWithDot then Resolved.decline
  else
    match lookupFs fs req.segs with
    | none => Resolved.decline
    | some Entry.dir =>
      if opts.normalizeDirs && !req.trailing then
        Resolved.redirect (req.path ++ "/" ++ qSuffix req.query)
      else if opts.index then
        match lookupFs fs (req.segs ++ ["index.html"]) with
        | some (Entry.file _) => openResolved fs opts req (req.segs ++ ["index.html"])
        | _ => Resolved.decline
      else Resolved.decline
    | some (Entry.file _) => openResolved fs opts req req.segs

/-- Modelled from the spec (§4.4, design note): a route handler's
three-way outcome, with decline (forward) distinct from a response. -/
inductive Outcome
  | respond (r : HttpResponse)
  | forward
deriving DecidableEq, Repr

/-- Modelled from the spec: the route handler built from the policy — a
resolved file is answered through the `NamedFile` responder, a redirect
becomes a 308 with the `Location` header, and a decline forwards. -/
def handleReq (ctFor : String → Option String) (fs : Fs) (opts : Options)
    (req : Request) : Outcome :=
  match resolveReq fs opts req with
  | Resolved.file nf => Outcome.respond (respondTo ctFor nf)
  | Resolved.redirect loc =>
    Outcome.respond { status := 308, location := some loc, contentEncoding := none,
                      contentType := none, body := [] }
  | Resolved.decline => Outcome.forward

/-- The framework's default not-found response, produced when every
route forwards. -/
def notFoundResp : HttpResponse :=
  { status := 404, location := none, contentEncoding := none,
    contentType := none, body := [] }

/-- Modelled from the spec (§4.4): the dispatcher tries the matching
routes' handlers in ascending rank order; the first response wins, and
if every handler forwards the framework's not-found default applies. -/
def dispatchHandlers : List (Request → Outcome) → Request → HttpResponse
  | [], _ => notFoundResp
  | h :: t, req =>
    match h req with
    | Outcome.respond r => r
    | Outcome.forward => dispatchHandlers t req

/-- Modelled from the spec: a registered route — a rank plus a handler. -/
structure Route where
  rank : Int
  handler : Request → Outcome

/-- Modelled from the spec: a `FileServer` — the filesystem subtree
scoped to its root, its options, and its configured rank. -/
structure FileServer where
  fs : Fs
  opts : Options
  rank : Int

/-- `FileServer::rank(n)`: set the configured rank. -/
def FileServer.setRank (s : FileServer) (n : Int) : FileServer :=
  { s with rank := n }

/-- Modelled from the spec (§4.4): the route entries a `FileServer`
registers — each carries the configured rank and the policy handler,
which does not consult the rank. -/
def FileServer.routes (ctFor : String → Option String) (s : FileServer) : List Route :=
  [{ rank := s.rank, handler := handleReq ctFor s.fs s.opts }]

/-- Modelled from the spec (§4.1): `ContentType::from_extension`, a pure
case-insensitive extension-to-MIME lookup (outside the provided
sources); the table here carries the spec's example rows. -/
def contentTypeFor (e : String) : Option String :=
  let l := e.toLower
  if l = "html" then some "text/html"
  else if l = "txt" then some "text/plain"
  else if l = "js" then some "application/javascript"
  else none

/-! ## Helper lemmas -/

theorem string_data_append (s t : String) : (s ++ t).data = s.data ++ t.data := by
  cases s; cases t; rfl

theorem string_eq_of_data (s t : String) (h : s.data = t.data) : s = t := by
  cases s; cases t; exact congrArg String.mk h

theorem lastDotIdx_append_gz (xs : List Char) :
    lastDotIdx (xs ++ ['.', 'g', 'z']) = some xs.length := by
  induction xs with
  | nil => rfl
  | cons c cs ih => simp [lastDotIdx, ih]

theorem drop_append_len_succ {α : Type} (xs l : List α) :
    (xs ++ l).drop (xs.length + 1) = l.drop 1 := by
  induction xs with
  | nil => rfl
  | cons c cs ih => simp [ih]

theorem take_append_len {α : Type} (xs l : List α) :
    (xs ++ l).take xs.length = xs := by
  induction xs with
  | nil => rfl
  | cons c cs ih => simp [ih]

theorem extOf_append_gz (s : String) (h : s ≠ "") :
    extOf (s ++ ".gz") = some "gz" := by
  have hd : (s ++ ".gz").data = s.data ++ ['.', 'g', 'z'] := string_data_append s ".gz"
  have hne : s.data ≠ [] := by
    intro hnil
    exact h (string_eq_of_data s "" hnil)
  have hlen : 0 < s.data.length := List.length_pos.mpr hne
  simp only [extOf, extOfChars, hd, lastDotIdx_append_gz]
  rw [if_pos hlen, drop_append_len_succ]
  rfl

theorem stemOf_append_gz (s : String) (h : s ≠ "") :
    stemOf (s ++ ".gz") = s := by
  have hd : (s ++ ".gz").data = s.data ++ ['.', 'g', 'z'] := string_data_append s ".gz"
  have hne : s.data ≠ [] := by
    intro hnil
    exact h (string_eq_of_data s "" hnil)
  have hlen : 0 < s.data.length := List.length_pos.mpr hne
  apply string_eq_of_data
  simp only [stemOf, stemOfChars, hd, lastDotIdx_append_gz]
  rw [if_pos hlen, take_append_len]

theorem lastSeg_append_single (l : List String) (x : String) :
    lastSeg (l ++ [x]) = some x := by
  induction l with
  | nil => rfl
  | cons a t ih =>
    have h : ∃ b t', t ++ [x] = b :: t' := by
      cases t with
      | nil => exact ⟨x, [], rfl⟩
      | cons c cs => exact ⟨c, cs ++ [x], rfl⟩
    obtain ⟨b, t', hbt⟩ := h
    calc lastSeg ((a :: t) ++ [x]) = lastSeg (a :: b :: t') := by
          rw [List.cons_append, hbt]
      _ = lastSeg (b :: t') := rfl
      _ = lastSeg (t ++ [x]) := by rw [hbt]
      _ = some x := ih

theorem gzSibling_append_single (l : List String) (x : String) :
    gzSibling (l ++ [x]) = l ++ [x ++ ".gz"] := by
  induction l with
  | nil => rfl
  | cons a t ih =>
    have h : ∃ b t', t ++ [x] = b :: t' := by
      cases t with
      | nil => exact ⟨x, [], rfl⟩
      | cons c cs => exact ⟨c, cs ++ [x], rfl⟩
    obtain ⟨b, t', hbt⟩ := h
    calc gzSibling ((a :: t) ++ [x]) = gzSibling (a :: b :: t') := by
          rw [List.cons_append, hbt]
      _ = a :: gzSibling (b :: t') := rfl
      _ = a :: gzSibling (t ++ [x]) := by rw [hbt]
      _ = a :: (t ++ [x ++ ".gz"]) := by rw [ih]
      _ = (a :: t) ++ [x ++ ".gz"] := rfl

theorem lastDotIdx_decomp (cs : List Char) (i : Nat) (h : lastDotIdx cs = some i) :
    cs.take i ++ '.' :: cs.drop (i + 1) = cs := by
  induction cs generalizing i with
  | nil => simp [lastDotIdx] at h
  | cons c t ih =>
    rw [lastDotIdx] at h
    cases ht : lastDotIdx t with
    | some j =>
      rw [ht] at h
      cases h
      simpa using ih j ht
    | none =>
      rw [ht] at h
      by_cases hc : c = '.'
      · rw [if_pos hc] at h
        cases h
        simp [hc]
      · rw [if_neg hc] at h
        exact absurd h (by simp)

theorem extOf_gz_decomp (s : String) (h : extOf s = some "gz") :
    s = stemOf s ++ ".gz" := by
  rw [extOf] at h
  cases hx : extOfChars s.data with
  | none => rw [hx] at h; simp at h
  | some cs =>
    rw [hx] at h
    have hcs : cs = ['g', 'z'] := by
      have : String.mk cs = "gz" := by simpa using h
      exact congrArg String.data this
    rw [extOfChars] at hx
    cases hd : lastDotIdx s.data with
    | none =>
      simp only [hd] at hx
      exact Option.noConfusion hx
    | some i =>
      simp only [hd] at hx
      by_cases hi : 0 < i
      · rw [if_pos hi] at hx
        have hdrop : s.data.drop (i + 1) = ['g', 'z'] := by
          have := hx
          simp only [Option.some.injEq] at this
          rw [this, hcs]
        have hdec := lastDotIdx_decomp s.data i hd
        have hstem : stemOf s = String.mk (s.data.take i) := by
          simp [stemOf, stemOfChars, hd, hi]
        apply string_eq_of_data
        rw [hstem, string_data_append]
        show s.data = s.data.take i ++ ['.', 'g', 'z']
        rw [← hdrop]
        exact hdec.symm
      · rw [if_neg hi] at hx
        exact absurd hx (by simp)

theorem openResolved_isRedirect (fs : Fs) (opts : Options) (req : Request)
    (rp : List String) : (openResolved fs opts req rp).isRedirect = false := by
  cases hc : opts.prezipped && req.acceptGzip <;>
    cases h1 : NamedFile.openCompressed fs (gzSibling rp) <;>
      cases h2 : NamedFile.open fs rp <;>
        simp [openResolved, hc, h1, h2, Resolved.isRedirect]

theorem respondTo_withFile (ctFor : String → Option String) (nf : NamedFile)
    (f : List Nat) :
    respondTo ctFor (nf.withFile f) = { respondTo ctFor nf with body := f } := by
  cases hl : lastSeg nf.path with
  | none => simp [respondTo, NamedFile.withFile, hl]
  | some name =>
    cases he : extOf name with
    | none => simp [respondTo, NamedFile.withFile, hl, he]
    | some ext =>
      cases hgz : nf.compressed && ext == "gz" with
      | false =>
        cases hct : ctFor ext <;>
          simp [respondTo, NamedFile.withFile, hl, he, hgz, hct]
      | true =>
        cases hct : ctFor ((extOf (stemOf name)).getD ext) <;>
          simp [respondTo, NamedFile.withFile, hl, he, hgz, hct]

/-! ## Claims about the NamedFile responder -/

/-- Claim C1: for every `NamedFile` responding to a request, if its
`compressed` flag is set and the final extension of its path is `"gz"`,
the response carries `Content-Encoding: gzip`, and the content-type
lookup key is the extension of the path with the `.gz` suffix removed
whenever that stripped name has an extension (otherwise the original
`gz` extension); the looked-up content type is exactly what is set, and
when the path has no extension no Content-Type is set by the responder. -/
theorem c1_gz_header_logic (ctFor : String → Option String) (nf : NamedFile) :
    (∀ name, lastSeg nf.path = some name → nf.compressed = true →
      extOf name = some "gz" →
      (respondTo ctFor nf).contentEncoding = some "gzip" ∧
      name = stemOf name ++ ".gz" ∧
      (respondTo ctFor nf).contentType = ctFor ((extOf (stemOf name)).getD "gz")) ∧
    (pathExt nf.path = none → (respondTo ctFor nf).contentType = none) := by
  constructor
  · intro name hl hc he
    refine ⟨?_, extOf_gz_decomp name he, ?_⟩ <;>
      cases hct : ctFor ((extOf (stemOf name)).getD "gz") <;>
        simp [respondTo, hl, he, hc, hct]
  · cases hl : lastSeg nf.path with
    | none => simp [respondTo, hl]
    | some name =>
      cases he : extOf name with
      | none => simp [respondTo, hl, he]
      | some ext => simp [pathExt, hl, he]

theorem c1_gz_header_logic_witness :
    (respondTo contentTypeFor ⟨["hello.txt.gz"], [1, 2], true⟩).contentEncoding
        = some "gzip" ∧
    "hello.txt.gz" = stemOf "hello.txt.gz" ++ ".gz" ∧
    (respondTo contentTypeFor ⟨["hello.txt.gz"], [1, 2], true⟩).contentType
        = contentTypeFor ((extOf (stemOf "hello.txt.gz")).getD "gz") :=
  (c1_gz_header_logic contentTypeFor ⟨["hello.txt.gz"], [1, 2], true⟩).1
    "hello.txt.gz" rfl rfl (by decide)

/-- Claim C9: for every `NamedFile` whose path's final extension is not
`"gz"` — including a path with no extension — `respond_to` sets no
Content-Encoding, even when `compressed` is set; and with no extension
at all it sets neither Content-Encoding nor Content-Type. -/
theorem c9_non_gz_never_encoded (ctFor : String → Option String) (nf : NamedFile)
    (h : pathExt nf.path ≠ some "gz") :
    (respondTo ctFor nf).contentEncoding = none ∧
    (pathExt nf.path = none → (respondTo ctFor nf).contentType = none) := by
  cases hl : lastSeg nf.path with
  | none => constructor <;> simp [respondTo, hl]
  | some name =>
    cases he : extOf name with
    | none => constructor <;> simp [respondTo, hl, he]
    | some ext =>
      have hne : ext ≠ "gz" := by
        intro hx
        exact h (by simp [pathExt, hl, he, hx])
      have hb : (ext == "gz") = false := by simp [hne]
      constructor
      · cases hct : ctFor ext <;> simp [respondTo, hl, he, hb, hct]
      · intro hnone
        rw [pathExt, hl] at hnone
        simp [he] at hnone

theorem c9_non_gz_never_encoded_witness :
    (respondTo contentTypeFor ⟨["README"], [5], true⟩).contentEncoding = none ∧
    (respondTo contentTypeFor ⟨["README"], [5], true⟩).contentType = none := by
  have h := c9_non_gz_never_encoded contentTypeFor ⟨["README"], [5], true⟩ (by decide)
  exact ⟨h.1, h.2 (by decide)⟩

/-- Claim C10: `path()` returns exactly the path passed to `open` or
`open_compressed`; `file()`, `take_file()`, and the deref accessors
expose the file set at construction; and replacing the file through the
mutable accessors leaves `path` and `compressed` unchanged, so the
status and headers computed by `respond_to` are unaffected. -/
theorem c10_accessors_frame (ctFor : String → Option String) (fs : Fs)
    (p : List String) (b f : List Nat) (nf : NamedFile) :
    (lookupFs fs p = some (Entry.file b) →
      NamedFile.open fs p = some ⟨p, b, false⟩ ∧
      NamedFile.openCompressed fs p = some ⟨p, b, true⟩) ∧
    nf.getPath = nf.path ∧
    nf.fileRef = nf.file ∧
    nf.takeFile = nf.file ∧
    (nf.withFile f).path = nf.path ∧
    (nf.withFile f).compressed = nf.compressed ∧
    (respondTo ctFor (nf.withFile f)).status = (respondTo ctFor nf).status ∧
    (respondTo ctFor (nf.withFile f)).contentEncoding
        = (respondTo ctFor nf).contentEncoding ∧
    (respondTo ctFor (nf.withFile f)).contentType
        = (respondTo ctFor nf).contentType := by
  refine ⟨?_, rfl, rfl, rfl, rfl, rfl, ?_, ?_, ?_⟩
  · intro h
    constructor <;> simp [NamedFile.open, NamedFile.openCompressed, h]
  all_goals rw [respondTo_withFile]

theorem c10_accessors_frame_witness :
    (NamedFile.open [(["a.txt"], Entry.file [7])] ["a.txt"]
        = some ⟨["a.txt"], [7], false⟩ ∧
      NamedFile.openCompressed [(["a.txt"], Entry.file [7])] ["a.txt"]
        = some ⟨["a.txt"], [7], true⟩) ∧
    (⟨["a.txt"], [7], false⟩ : NamedFile).getPath = ["a.txt"] ∧
    (⟨["a.txt"], [7], false⟩ : NamedFile).fileRef = [7] ∧
    (⟨["a.txt"], [7], false⟩ : NamedFile).takeFile = [7] ∧
    ((⟨["a.txt"], [7], false⟩ : NamedFile).withFile [9]).path = ["a.txt"] ∧
    ((⟨["a.txt"], [7], false⟩ : NamedFile).withFile [9]).compressed = false ∧
    (respondTo contentTypeFor ((⟨["a.txt"], [7], false⟩ : NamedFile).withFile [9])).status
        = (respondTo contentTypeFor ⟨["a.txt"], [7], false⟩).status ∧
    (respondTo contentTypeFor ((⟨["a.txt"], [7], false⟩ : NamedFile).withFile [9])).contentEncoding
        = (respondTo contentTypeFor ⟨["a.txt"], [7], false⟩).contentEncoding ∧
    (respondTo contentTypeFor ((⟨["a.txt"], [7], false⟩ : NamedFile).withFile [9])).contentType
        = (respondTo contentTypeFor ⟨["a.txt"], [7], false⟩).contentType := by
  have h := c10_accessors_frame contentTypeFor [(["a.txt"], Entry.file [7])]
    ["a.txt"] [7] [9] ⟨["a.txt"], [7], false⟩
  exact ⟨h.1 (by decide), h.2⟩

/-! ## Claims about the file-serving policy

Concrete fixtures shared by the witnesses below. -/

/-- A subtree holding `inner` (a directory) and `inner/index.html`. -/
def fsInner : Fs := [(["inner"], Entry.dir), (["inner", "index.html"], Entry.file [10, 11])]

/-- A subtree holding `hello.txt` and its pre-compressed sibling. -/
def fsGz : Fs := [(["hello.txt"], Entry.file [1, 2, 3]), (["hello.txt.gz"], Entry.file [9, 8])]

/-- Claim C3: under `NormalizeDirs`, a request whose path resolves to an
existing directory and lacks a trailing slash is answered with status
308 and a `Location` of the request path plus `/`, the query string
preserved verbatim after the appended slash; the same request with the
trailing slash already present is not redirected by this rule. -/
theorem c3_normalize_dirs_redirect (fs : Fs) (opts : Options) (req : Request)
    (h1 : req.segs.any badSeg = false)
    (h2 : (!opts.dotfiles && req.segs.any startsWithDot) = false)
    (hdir : lookupFs fs req.segs = some Entry.dir)
    (hnorm : opts.normalizeDirs = true)
    (htr : req.trailing = false) :
    resolveReq fs opts req
        = Resolved.redirect (req.path ++ "/" ++ qSuffix req.query) ∧
    (∀ ctFor, handleReq ctFor fs opts req =
      Outcome.respond
        { status := 308,
          location := some (req.path ++ "/" ++ qSuffix req.query),
          contentEncoding := none, contentType := none, body := [] }) ∧
    (resolveReq fs opts { req with trailing := true }).isRedirect = false := by
  have hres : resolveReq fs opts req
      = Resolved.redirect (req.path ++ "/" ++ qSuffix req.query) := by
    simp [resolveReq, h1, h2, hdir, hnorm, htr]
  refine ⟨hres, fun ctFor => by simp [handleReq, hres], ?_⟩
  cases hidx : opts.index with
  | false => simp [resolveReq, h1, h2, hdir, hidx, Resolved.isRedirect]
  | true =>
    rcases hix : lookupFs fs (req.segs ++ ["index.html"]) with _ | e
    · simp [resolveReq, h1, h2, hdir, hidx, hix, Resolved.isRedirect]
    · cases e with
      | file b => simp [resolveReq, h1, h2, hdir, hidx, hix, openResolved_isRedirect]
      | dir => simp [resolveReq, h1, h2, hdir, hidx, hix, Resolved.isRedirect]

theorem c3_normalize_dirs_redirect_witness :
    resolveReq fsInner
        { dotfiles := false, index := false, normalizeDirs := true, prezipped := false }
        { path := "/redir/inner", segs := ["inner"], trailing := false,
          query := some "foo=bar", acceptGzip := false }
      = Resolved.redirect ("/redir/inner" ++ "/" ++ qSuffix (some "foo=bar")) ∧
    handleReq contentTypeFor fsInner
        { dotfiles := false, index := false, normalizeDirs := true, prezipped := false }
        { path := "/redir/inner", segs := ["inner"], trailing := false,
          query := some "foo=bar", acceptGzip := false }
      = Outcome.respond
          { status := 308,
            location := some ("/redir/inner" ++ "/" ++ qSuffix (some "foo=bar")),
            contentEncoding := none, contentType := none, body := [] } ∧
    (resolveReq fsInner
        { dotfiles := false, index := false, normalizeDirs := true, prezipped := false }
        { path := "/redir/inner", segs := ["inner"], trailing := true,
          query := some "foo=bar", acceptGzip := false }).isRedirect = false := by
  have h := c3_normalize_dirs_redirect fsInner
    { dotfiles := false, index := false, normalizeDirs := true, prezipped := false }
    { path := "/redir/inner", segs := ["inner"], trailing := false,
      query := some "foo=bar", acceptGzip := false }
    (by decide) (by decide) (by decide) rfl rfl
  exact ⟨h.1, h.2.1 contentTypeFor, h.2.2⟩

/-- Claim C5: when both `NormalizeDirs` and `Index` are set, a request
for an existing directory without a trailing slash yields the 308
redirect — the redirect check strictly precedes the index-file check, so
the redirect is issued whether or not `index.html` exists there (the
filesystem is arbitrary beyond the directory's existence). -/
theorem c5_redirect_precedes_index (fs : Fs) (opts : Options) (req : Request)
    (h1 : req.segs.any badSeg = false)
    (h2 : (!opts.dotfiles && req.segs.any startsWithDot) = false)
    (hdir : lookupFs fs req.segs = some Entry.dir)
    (hnorm : opts.normalizeDirs = true)
    (_hidx : opts.index = true)
    (htr : req.trailing = false) :
    resolveReq fs opts req
        = Resolved.redirect (req.path ++ "/" ++ qSuffix req.query) ∧
    (∀ ctFor, handleReq ctFor fs opts req =
      Outcome.respond
        { status := 308,
          location := some (req.path ++ "/" ++ qSuffix req.query),
          contentEncoding := none, contentType := none, body := [] }) := by
  have hres : resolveReq fs opts req
      = Resolved.redirect (req.path ++ "/" ++ qSuffix req.query) := by
    simp [resolveReq, h1, h2, hdir, hnorm, htr]
  exact ⟨hres, fun ctFor => by simp [handleReq, hres]⟩

theorem c5_redirect_precedes_index_witness :
    resolveReq fsInner
        { dotfiles := false, index := true, normalizeDirs := true, prezipped := false }
        { path := "/redir_index/inner", segs := ["inner"], trailing := false,
          query := none, acceptGzip := false }
      = Resolved.redirect ("/redir_index/inner" ++ "/" ++ qSuffix none) ∧
    handleReq contentTypeFor fsInner
        { dotfiles := false, index := true, normalizeDirs := true, prezipped := false }
        { path := "/redir_index/inner", segs := ["inner"], trailing := false,
          query := none, acceptGzip := false }
      = Outcome.respond
          { status := 308,
            location := some ("/redir_index/inner" ++ "/" ++ qSuffix none),
            contentEncoding := none, contentType := none, body := [] } := by
  have h := c5_redirect_precedes_index fsInner
    { dotfiles := false, index := true, normalizeDirs := true, prezipped := false }
    { path := "/redir_index/inner", segs := ["inner"], trailing := false,
      query := none, acceptGzip := false }
    (by decide) (by decide) (by decide) rfl rfl rfl
  exact ⟨h.1, h.2 contentTypeFor⟩

/-- Claim C4: when `DotFiles` is unset, a request any of whose segments
starts with `.` is declined for every filesystem — the gate is lexical
and independent of existence — the handler forwards, and with no other
route the dispatcher produces the framework 404. -/
theorem c4_dotfile_gate (opts : Options) (req : Request) (s : String)
    (hdf : opts.dotfiles = false)
    (hmem : s ∈ req.segs)
    (hdot : startsWithDot s = true) :
    (∀ fs, resolveReq fs opts req = Resolved.decline) ∧
    (∀ ctFor fs, handleReq ctFor fs opts req = Outcome.forward) ∧
    (∀ ctFor fs, dispatchHandlers [handleReq ctFor fs opts] req = notFoundResp) := by
  have hany : req.segs.any startsWithDot = true := by
    rw [List.any_eq_true]
    exact ⟨s, hmem, hdot⟩
  have hdecl : ∀ fs, resolveReq fs opts req = Resolved.decline := by
    intro fs
    by_cases hb : req.segs.any badSeg = true
    · simp [resolveReq, hb]
    · have hb' : req.segs.any badSeg = false := by simpa using hb
      simp [resolveReq, hb', hdf, hany]
  refine ⟨hdecl, fun ctFor fs => by simp [handleReq, hdecl fs], ?_⟩
  intro ctFor fs
  simp [dispatchHandlers, handleReq, hdecl fs]

theorem c4_dotfile_gate_witness :
    resolveReq [([".hidden"], Entry.file [1])] Options.empty
        { path := "/no_index/.hidden", segs := [".hidden"], trailing := false,
          query := none, acceptGzip := false }
      = Resolved.decline ∧
    handleReq contentTypeFor [([".hidden"], Entry.file [1])] Options.empty
        { path := "/no_index/.hidden", segs := [".hidden"], trailing := false,
          query := none, acceptGzip := false }
      = Outcome.forward ∧
    dispatchHandlers [handleReq contentTypeFor [([".hidden"], Entry.file [1])] Options.empty]
        { path := "/no_index/.hidden", segs := [".hidden"], trailing := false,
          query := none, acceptGzip := false }
      = notFoundResp := by
  have h := c4_dotfile_gate Options.empty
    { path := "/no_index/.hidden", segs := [".hidden"], trailing := false,
      query := none, acceptGzip := false }
    ".hidden" rfl (by decide) (by decide)
  exact ⟨h.1 _, h.2.1 _ _, h.2.2 _ _⟩

/-- Claim C6: when the policy declines, the file-server handler forwards
(it emits no response itself), and the dispatcher hands the request to
the next-ranked matching route, whose answer becomes the response. -/
theorem c6_decline_forwards (ctFor : String → Option String) (fs : Fs)
    (opts : Options) (req : Request) (next : Request → Outcome) (r : HttpResponse)
    (hdecl : resolveReq fs opts req = Resolved.decline)
    (hnext : next req = Outcome.respond r) :
    handleReq ctFor fs opts req = Outcome.forward ∧
    dispatchHandlers [handleReq ctFor fs opts, next] req = r := by
  have hfwd : handleReq ctFor fs opts req = Outcome.forward := by
    simp [handleReq, hdecl]
  exact ⟨hfwd, by simp [dispatchHandlers, hfwd, hnext]⟩

theorem c6_decline_forwards_witness :
    handleReq contentTypeFor [] Options.empty
        { path := "/default/ireallydontexist", segs := ["ireallydontexist"],
          trailing := false, query := none, acceptGzip := false }
      = Outcome.forward ∧
    dispatchHandlers
        [handleReq contentTypeFor [] Options.empty,
         fun _ => Outcome.respond
           { status := 200, location := none, contentEncoding := none,
             contentType := none, body := [3, 4] }]
        { path := "/default/ireallydontexist", segs := ["ireallydontexist"],
          trailing := false, query := none, acceptGzip := false }
      = { status := 200, location := none, contentEncoding := none,
          contentType := none, body := [3, 4] } :=
  c6_decline_forwards contentTypeFor [] Options.empty
    { path := "/default/ireallydontexist", segs := ["ireallydontexist"],
      trailing := false, query := none, acceptGzip := false }
    (fun _ => Outcome.respond
      { status := 200, location := none, contentEncoding := none,
        contentType := none, body := [3, 4] })
    { status := 200, location := none, contentEncoding := none,
      contentType := none, body := [3, 4] }
    (by decide) rfl

/-- Claim C8: every route produced by a `FileServer` configured with
rank `n` carries rank `n`, and the resolution outcome for any fixed
request and filesystem is identical under any two configured ranks —
the rank influences only dispatch priority. -/
theorem c8_rank_only_priority (ctFor : String → Option String)
    (s : FileServer) (n m : Int) (req : Request) :
    (FileServer.routes ctFor (s.setRank n)).all (fun rt => rt.rank == n) = true ∧
    resolveReq (s.setRank n).fs (s.setRank n).opts req
        = resolveReq (s.setRank m).fs (s.setRank m).opts req ∧
    handleReq ctFor (s.setRank n).fs (s.setRank n).opts req
        = handleReq ctFor (s.setRank m).fs (s.setRank m).opts req ∧
    (FileServer.routes ctFor (s.setRank n)).map Route.handler
        = (FileServer.routes ctFor (s.setRank m)).map Route.handler := by
  refine ⟨?_, rfl, rfl, rfl⟩
  simp [FileServer.routes, FileServer.setRank]

/-- Claim C2: under `PreZipped`, when the request accepts gzip and the
`.gz` sibling of the existing regular file at the request path also
exists, the response has status 200, `Content-Encoding: gzip`, a body
byte-identical to the sibling's contents, and a Content-Type looked up
from the file's own extension rather than from `gz`. -/
theorem c2_prezipped_served (ctFor : String → Option String) (fs : Fs)
    (opts : Options) (req : Request) (init : List String) (name e : String)
    (bytesP gzBytes : List Nat)
    (hsegs : req.segs = init ++ [name])
    (h1 : req.segs.any badSeg = false)
    (h2 : (!opts.dotfiles && req.segs.any startsWithDot) = false)
    (hpz : opts.prezipped = true)
    (hacc : req.acceptGzip = true)
    (hfile : lookupFs fs req.segs = some (Entry.file bytesP))
    (hgz : lookupFs fs (gzSibling req.segs) = some (Entry.file gzBytes))
    (hext : extOf name = some e) :
    handleReq ctFor fs opts req =
      Outcome.respond
        { status := 200, location := none, contentEncoding := some "gzip",
          contentType := ctFor e, body := gzBytes } := by
  have hname : name ≠ "" := by
    intro hn
    subst hn
    rw [hsegs] at h1
    simp [badSeg] at h1
  have hsib : gzSibling req.segs = init ++ [name ++ ".gz"] := by
    rw [hsegs, gzSibling_append_single]
  have hres : resolveReq fs opts req
      = Resolved.file ⟨gzSibling req.segs, gzBytes, true⟩ := by
    simp [resolveReq, h1, h2, hfile, openResolved, hpz, hacc,
      NamedFile.openCompressed, hgz]
  have hlast : lastSeg (gzSibling req.segs) = some (name ++ ".gz") := by
    rw [hsib, lastSeg_append_single]
  have hegz : extOf (name ++ ".gz") = some "gz" := extOf_append_gz name hname
  have hstem : stemOf (name ++ ".gz") = name := stemOf_append_gz name hname
  simp only [handleReq, hres]
  cases hct : ctFor e <;>
    simp [respondTo, hlast, hegz, hstem, hext, hct]

theorem c2_prezipped_served_witness :
    handleReq contentTypeFor fsGz
        { dotfiles := false, index := false, normalizeDirs := false, prezipped := true }
        { path := "/compressed/hello.txt", segs := ["hello.txt"], trailing := false,
          query := none, acceptGzip := true }
      = Outcome.respond
          { status := 200, location := none, contentEncoding := some "gzip",
            contentType := contentTypeFor "txt", body := [9, 8] } :=
  c2_prezipped_served contentTypeFor fsGz
    { dotfiles := false, index := false, normalizeDirs := false, prezipped := true }
    { path := "/compressed/hello.txt", segs := ["hello.txt"], trailing := false,
      query := none, acceptGzip := true }
    [] "hello.txt" "txt" [1, 2, 3] [9, 8]
    rfl (by decide) (by decide) rfl rfl (by decide) (by decide) (by decide)

/-- Claim C7: with `Index` set, a request resolving to a directory that
contains `index.html` serves that `index.html`: it becomes the resolved
file, the body is its bytes, and the content type is the one looked up
for the `html` extension of `index.html`. -/
theorem c7_index_substitution (ctFor : String → Option String) (fs : Fs)
    (opts : Options) (req : Request) (bytesIdx : List Nat)
    (h1 : req.segs.any badSeg = false)
    (h2 : (!opts.dotfiles && req.segs.any startsWithDot) = false)
    (hdir : lookupFs fs req.segs = some Entry.dir)
    (hnr : (opts.normalizeDirs && !req.trailing) = false)
    (hidx : opts.index = true)
    (hfile : lookupFs fs (req.segs ++ ["index.html"]) = some (Entry.file bytesIdx))
    (hng : (opts.prezipped && req.acceptGzip) = false) :
    resolveReq fs opts req
        = Resolved.file ⟨req.segs ++ ["index.html"], bytesIdx, false⟩ ∧
    handleReq ctFor fs opts req =
      Outcome.respond
        { status := 200, location := none, contentEncoding := none,
          contentType := ctFor "html", body := bytesIdx } := by
  have hres : resolveReq fs opts req
      = Resolved.file ⟨req.segs ++ ["index.html"], bytesIdx, false⟩ := by
    simp [resolveReq, h1, h2, hdir, hnr, hidx, hfile, openResolved, hng,
      NamedFile.open]
  refine ⟨hres, ?_⟩
  have hlast : lastSeg (req.segs ++ ["index.html"]) = some "index.html" :=
    lastSeg_append_single _ _
  have hei : extOf "index.html" = some "html" := by decide
  simp only [handleReq, hres]
  cases hct : ctFor "html" <;>
    simp [respondTo, hlast, hei, hct]

theorem c7_index_substitution_witness :
    resolveReq fsInner
        { dotfiles := false, index := true, normalizeDirs := false, prezipped := false }
        { path := "/index/inner/", segs := ["inner"], trailing := true,
          query := none, acceptGzip := true }
      = Resolved.file ⟨["inner", "index.html"], [10, 11], false⟩ ∧
    handleReq contentTypeFor fsInner
        { dotfiles := false, index := true, normalizeDirs := false, prezipped := false }
        { path := "/index/inner/", segs := ["inner"], trailing := true,
          query := none, acceptGzip := true }
      = Outcome.respond
          { status := 200, location := none, contentEncoding := none,
            contentType := contentTypeFor "html", body := [10, 11] } :=
  c7_index_substitution contentTypeFor fsInner
    { dotfiles := false, index := true, normalizeDirs := false, prezipped := false }
    { path := "/index/inner/", segs := ["inner"], trailing := true,
      query := none, acceptGzip := true }
    [10, 11] (by decide) (by decide) (by decide) rfl rfl (by decide) rfl

end Rocket
